import Mathlib

/-!
Verification of the `rac` MAC-address utility (src/src/main.rs).

The Rust source is shallowly embedded: machine integers (`u8`) become `Nat`
values below 256, the `[u8; 6]` array becomes a six-field structure, string
processing is done on `List Char`, and the effectful `main` set-subcommand
logic becomes a pure function from its inputs (flags, random draws, the OS
interface table snapshot) to a record of its observable behaviour.
-/

deriving instance DecidableEq for Except

/-- Embeds `enum MacParseError` from main.rs. -/
inductive MacParseError where
  | invalidDigit
  | invalidLength
deriving DecidableEq, Repr

/-- Embeds `struct MacAddr { bytes: [u8; 6] }`: the six octets in order.
Each octet is a `Nat` standing for a `u8`, hence below 256 for every value
the program constructs. -/
structure MacAddr where
  b0 : Nat
  b1 : Nat
  b2 : Nat
  b3 : Nat
  b4 : Nat
  b5 : Nat
deriving DecidableEq, Repr

/-- The octets of a `MacAddr` as u8 values: each below 256. -/
def MacAddr.wf (a : MacAddr) : Prop :=
  a.b0 < 256 ∧ a.b1 < 256 ∧ a.b2 < 256 ∧ a.b3 < 256 ∧ a.b4 < 256 ∧ a.b5 < 256

instance (a : MacAddr) : Decidable a.wf := by
  unfold MacAddr.wf; infer_instance

/-- Uppercase hexadecimal digit character, as Rust's `{:X}` renders one
digit: `0`..`9` for values below 10, `A`..`F` for 10..15. -/
def hexChar (n : Nat) : Char :=
  if n < 10 then Char.ofNat (48 + n) else Char.ofNat (55 + n)

/-- Rust's `{:<02X}` on a `u8`: the `0` flag overrides the fill and
alignment, so the octet is rendered as exactly two uppercase hex digits,
zero-padded on the left (a `u8` never needs more than two digits). -/
def byteHex (b : Nat) : List Char :=
  [hexChar (b / 16), hexChar (b % 16)]

/-- Embeds `impl std::fmt::Display for MacAddr`: the six octets rendered
with `{:<02X}` and joined by `:`. -/
def MacAddr.format (a : MacAddr) : String :=
  ⟨byteHex a.b0 ++ ':' :: byteHex a.b1 ++ ':' :: byteHex a.b2 ++
    ':' :: byteHex a.b3 ++ ':' :: byteHex a.b4 ++ ':' :: byteHex a.b5⟩

/-- The separator test `|c| c == ':' || c == '-'` from `MacAddr::from_str`. -/
def macSep (c : Char) : Bool :=
  c == ':' || c == '-'

/-- Rust's `str::split` on a character predicate: the (always nonempty)
list of fields between separator occurrences, keeping empty fields. -/
def splitSep (sep : Char → Bool) : List Char → List (List Char)
  | [] => [[]]
  | c :: rest =>
    match splitSep sep rest with
    | [] => [[]]
    | f :: fs => if sep c then [] :: f :: fs else (c :: f) :: fs

/-- Rust's `char::to_digit(16)`: the value of a hex digit character,
`none` for any other character. -/
def hexVal (c : Char) : Option Nat :=
  if '0' ≤ c ∧ c ≤ '9' then some (c.toNat - 48)
  else if 'a' ≤ c ∧ c ≤ 'f' then some (c.toNat - 97 + 10)
  else if 'A' ≤ c ∧ c ≤ 'F' then some (c.toNat - 65 + 10)
  else none

/-- The digit-accumulation loop of `u8::from_str_radix(_, 16)`: consume hex
digits left to right with checked arithmetic in `u8`, failing on a
non-digit or when the accumulator would exceed 255. -/
def hexDigitsLoop : List Char → Nat → Option Nat
  | [], acc => some acc
  | c :: rest, acc =>
    match hexVal c with
    | none => none
    | some d =>
      if acc * 16 + d > 255 then none else hexDigitsLoop rest (acc * 16 + d)

/-- Embeds `u8::from_str_radix(byte, 16)` as used in `MacAddr::from_str`:
an empty string or a lone `+` fails, a leading `+` is skipped (`-` is not
accepted for an unsigned type), then the digit loop runs.  The source maps
every failure (empty, invalid digit, overflow) to `InvalidDigit`, so only
success/failure is distinguished here. -/
def parseFieldU8 (s : List Char) : Option Nat :=
  match s with
  | [] => none
  | c :: rest =>
    if c = '+' then
      if rest = [] then none else hexDigitsLoop rest 0
    else hexDigitsLoop (c :: rest) 0

/-- The numeric value denoted by hex digit characters, folded onto an
accumulator the way the digit loop accumulates. -/
def foldVal (acc : Nat) (ds : List Char) : Nat :=
  ds.foldl (fun a c => a * 16 + (hexVal c).getD 0) acc

/-- The numeric value of a run of hex digit characters. -/
def hexFieldValue (ds : List Char) : Nat :=
  foldVal 0 ds

/-- The digit characters of a field: a single leading `+` is not a digit
and is stripped. -/
def fieldDigits : List Char → List Char
  | [] => []
  | c :: rest => if c = '+' then rest else c :: rest

/-- A field accepted by `u8::from_str_radix(_, 16)`: an optional leading
`+`, then at least one hex digit, with total value at most 255. -/
def validU8HexField (s : List Char) : Bool :=
  !(fieldDigits s).isEmpty &&
    (fieldDigits s).all (fun c => (hexVal c).isSome) &&
    hexFieldValue (fieldDigits s) ≤ 255

/-- The spec's notion of a hex field: 1 to 2 case-insensitive hex digits
(such a field's value is automatically in [0, 255]). -/
def isField12 (f : List Char) : Bool :=
  (f.length = 1 || f.length = 2) && f.all (fun c => (hexVal c).isSome)

/-- Uppercase hexadecimal digit character test, for stating what `Format`
emits. -/
def isUpperHexDigit (c : Char) : Bool :=
  ('0' ≤ c && c ≤ '9') || ('A' ≤ c && c ≤ 'F')

/-- Split exactly on `:`, for stating that `Format` joins octets with
colons. -/
def colonSep (c : Char) : Bool :=
  c == ':'

/-- The field loop of `MacAddr::from_str`: a 7th field is rejected with
`InvalidLength` before being interpreted, a field `u8::from_str_radix`
rejects gives `InvalidDigit`, and fewer than 6 fields at the end gives
`InvalidLength`.  Writing `array[nth]` in order is modelled by appending to
`acc`. -/
def fromStrFields : List (List Char) → Nat → List Nat →
    Except MacParseError (List Nat)
  | [], nth, acc => if nth ≠ 6 then .error .invalidLength else .ok acc
  | f :: fs, nth, acc =>
    if nth = 6 then .error .invalidLength
    else
      match parseFieldU8 f with
      | none => .error .invalidDigit
      | some v => fromStrFields fs (nth + 1) (acc ++ [v])

/-- Rebuilds the `[u8; 6]` array from the six collected octets. -/
def MacAddr.ofList (l : List Nat) : MacAddr :=
  ⟨l.getD 0 0, l.getD 1 0, l.getD 2 0, l.getD 3 0, l.getD 4 0, l.getD 5 0⟩

/-- Embeds `impl std::str::FromStr for MacAddr`: split the input on `:` or
`-` and run the field loop. -/
def from_str (input : String) : Except MacParseError MacAddr :=
  match fromStrFields (splitSep macSep input.data) 0 [] with
  | .error e => .error e
  | .ok l => .ok (MacAddr.ofList l)

/-- Embeds `fn new_addr()`: six independent `random::<u8>()` draws (here
the argument `r`), then octet 0 gets `&= 0xfe` (clear the multicast bit)
and `|= 0x02` (set the local-assignment bit). -/
def new_addr (r : Fin 6 → Fin 256) : MacAddr :=
  ⟨(r 0 : Nat) &&& 0xfe ||| 0x02, r 1, r 2, r 3, r 4, r 5⟩

/-- Embeds the `SockAddr` payload of an interface entry: either a
link-layer address carrying 6 bytes (`SockAddr::Link`) or any other
address family. -/
inductive SockAddrModel where
  | link (bytes : MacAddr)
  | other
deriving DecidableEq, Repr

/-- Embeds one entry of the `getifaddrs()` enumeration: an interface name
and an optional address payload. -/
structure InterfaceEntry where
  interface_name : String
  address : Option SockAddrModel
deriving DecidableEq, Repr

/-- Embeds `fn inter_exists`: does any enumerated entry (any address
family) have exactly this interface name. -/
def inter_exists (env : List InterfaceEntry) (inter : String) : Bool :=
  env.any (fun e => e.interface_name == inter)

/-- The `bytes.iter().any(|&x| x != 0)` test in `get_info`. -/
def MacAddr.anyNonzero (a : MacAddr) : Bool :=
  a.b0 != 0 || a.b1 != 0 || a.b2 != 0 || a.b3 != 0 || a.b4 != 0 || a.b5 != 0

/-- Embeds `fn get_info`: walk the enumeration in order; for each
link-layer entry, with a requested name return `(name, bytes)` on an exact
name match, and with no requested name return the entry as soon as its
bytes are not all zero.  Entries without a link-layer address are skipped,
and `none` is returned when the walk finds nothing. -/
def get_info (name : Option String) : List InterfaceEntry →
    Option (String × MacAddr)
  | [] => none
  | e :: rest =>
    match e.address with
    | some (.link bytes) =>
      match name with
      | some n =>
        if e.interface_name = n then some (n, bytes) else get_info name rest
      | none =>
        if bytes.anyNonzero then some (e.interface_name, bytes)
        else get_info name rest
    | _ => get_info name rest

/-- A link-layer entry, regardless of its bytes. -/
def isLinkEntry (e : InterfaceEntry) : Bool :=
  match e.address with
  | some (.link _) => true
  | _ => false

/-- The bytes of a link-layer entry (all-zero placeholder otherwise). -/
def entryBytes (e : InterfaceEntry) : MacAddr :=
  match e.address with
  | some (.link bytes) => bytes
  | _ => ⟨0, 0, 0, 0, 0, 0⟩

/-- A link-layer entry whose bytes are not all zero: what the no-name
lookup accepts. -/
def isRealLink (e : InterfaceEntry) : Bool :=
  isLinkEntry e && (entryBytes e).anyNonzero

/-- A link-layer entry carrying exactly the requested interface name:
what the named lookup accepts. -/
def matchesName (n : String) (e : InterfaceEntry) : Bool :=
  isLinkEntry e && e.interface_name == n

/-- The user-visible advisories printed by the `set` branch of `main`,
identified by which `println!` emits them. -/
inductive Advisory where
  | interfaceAlone
  | randomPrecedence
  | interfaceDoesntExist (inter : String)
  | noInterfaceFallback
  | notValidMac (s : String)
deriving DecidableEq, Repr

/-- How the `set` branch of `main` terminates: normally, with the
`io::Error` built from a `MacParseError`, or at an `unreachable!`. -/
inductive RunResult where
  | ok
  | invalidInput (e : MacParseError)
  | unreachableHit
deriving DecidableEq, Repr

/-- Everything observable about one run of the `set` branch: the
advisories in print order, the names passed to `inter_exists`, how many
times `get_info` ran, each `set_addr` invocation (the privileged mutation
collaborator) with its interface and address, and the termination. -/
structure SetOutcome where
  advisories : List Advisory
  existsChecks : List String
  lookups : Nat
  mutations : List (String × MacAddr)
  result : RunResult
deriving DecidableEq, Repr

/-- Embeds the `SubCmds::Set { address, interface, random }` branch of
`main`, with the six random draws and the interface enumeration snapshot
passed in explicitly.  `set_addr` is recorded as one mutation invocation;
OS enumeration itself is assumed to succeed (its `io::Result` failure is
outside this model). -/
def runSet (address iface : Option String) (random : Bool)
    (r : Fin 6 → Fin 256) (env : List InterfaceEntry) : SetOutcome :=
  if iface.isSome && address.isNone && !random then
    ⟨[.interfaceAlone], [], 0, [], .ok⟩
  else if random then
    let advs := if address.isSome then [Advisory.randomPrecedence] else []
    let a := new_addr r
    match iface with
    | some inter =>
      if inter_exists env inter then
        ⟨advs, [inter], 0, [(inter, a)], .ok⟩
      else
        ⟨advs ++ [.interfaceDoesntExist inter], [inter], 0, [], .ok⟩
    | none =>
      match get_info none env with
      | some (inter, _) =>
        ⟨advs ++ [.noInterfaceFallback], [], 1, [(inter, a)], .ok⟩
      | none => ⟨advs ++ [.noInterfaceFallback], [], 1, [], .unreachableHit⟩
  else
    match address with
    | some s =>
      match from_str s with
      | .error e => ⟨[.notValidMac s], [], 0, [], .invalidInput e⟩
      | .ok a =>
        match iface with
        | some inter =>
          if inter_exists env inter then
            ⟨[], [inter], 0, [(inter, a)], .ok⟩
          else
            ⟨[.interfaceDoesntExist inter], [inter], 0, [], .ok⟩
        | none =>
          match get_info none env with
          | some (inter, _) =>
            ⟨[.noInterfaceFallback], [], 1, [(inter, a)], .ok⟩
          | none => ⟨[.noInterfaceFallback], [], 1, [], .unreachableHit⟩
    | none => ⟨[], [], 0, [], .ok⟩


lemma hexChar_facts (n : Fin 16) :
    macSep (hexChar n.val) = false ∧ colonSep (hexChar n.val) = false ∧
    hexChar n.val ≠ '+' ∧ hexVal (hexChar n.val) = some n.val ∧
    isUpperHexDigit (hexChar n.val) = true := by
  revert n
  decide

lemma macSep_hexChar {n : Nat} (h : n < 16) : macSep (hexChar n) = false :=
  (hexChar_facts ⟨n, h⟩).1

lemma colonSep_hexChar {n : Nat} (h : n < 16) : colonSep (hexChar n) = false :=
  (hexChar_facts ⟨n, h⟩).2.1

lemma hexChar_ne_plus {n : Nat} (h : n < 16) : hexChar n ≠ '+' :=
  (hexChar_facts ⟨n, h⟩).2.2.1

lemma hexVal_hexChar {n : Nat} (h : n < 16) : hexVal (hexChar n) = some n :=
  (hexChar_facts ⟨n, h⟩).2.2.2.1

lemma isUpperHexDigit_hexChar {n : Nat} (h : n < 16) :
    isUpperHexDigit (hexChar n) = true :=
  (hexChar_facts ⟨n, h⟩).2.2.2.2

lemma splitSep_ne_nil (sep : Char → Bool) (l : List Char) :
    splitSep sep l ≠ [] := by
  cases l with
  | nil => simp [splitSep]
  | cons c rest =>
    simp only [splitSep]
    cases splitSep sep rest with
    | nil => simp
    | cons f fs => by_cases hc : sep c <;> simp [hc]

lemma splitSep_cons_sep (sep : Char → Bool) (c : Char) (rest : List Char)
    (hc : sep c = true) :
    splitSep sep (c :: rest) = [] :: splitSep sep rest := by
  simp only [splitSep]
  cases h : splitSep sep rest with
  | nil => exact absurd h (splitSep_ne_nil sep rest)
  | cons f fs => simp [hc]

lemma splitSep_cons_notsep (sep : Char → Bool) (c : Char) (rest : List Char)
    (hc : sep c = false) :
    ∃ f fs, splitSep sep rest = f :: fs ∧
      splitSep sep (c :: rest) = (c :: f) :: fs := by
  cases h : splitSep sep rest with
  | nil => exact absurd h (splitSep_ne_nil sep rest)
  | cons f fs =>
    refine ⟨f, fs, rfl, ?_⟩
    simp only [splitSep, h, hc]
    simp

lemma splitSep_no_sep (sep : Char → Bool) (cs : List Char)
    (hcs : ∀ c ∈ cs, sep c = false) :
    splitSep sep cs = [cs] := by
  induction cs with
  | nil => rfl
  | cons c rest ih =>
    have hr := ih (fun x hx => hcs x (List.mem_cons_of_mem c hx))
    obtain ⟨f, fs, h1, h2⟩ :=
      splitSep_cons_notsep sep c rest (hcs c (List.mem_cons_self c rest))
    rw [h1] at hr
    obtain ⟨hf, hfs⟩ := List.cons_eq_cons.mp hr
    subst hf
    subst hfs
    rw [h2]

lemma splitSep_append_sep (sep : Char → Bool) (cs : List Char) (d : Char)
    (rest : List Char) (hcs : ∀ c ∈ cs, sep c = false) (hd : sep d = true) :
    splitSep sep (cs ++ d :: rest) = cs :: splitSep sep rest := by
  induction cs with
  | nil => simpa using splitSep_cons_sep sep d rest hd
  | cons c cs ih =>
    have hr := ih (fun x hx => hcs x (List.mem_cons_of_mem c hx))
    obtain ⟨f, fs, h1, h2⟩ :=
      splitSep_cons_notsep sep c (cs ++ d :: rest)
        (hcs c (List.mem_cons_self c cs))
    rw [h1] at hr
    obtain ⟨hf, hfs⟩ := List.cons_eq_cons.mp hr
    subst hf
    rw [List.cons_append, h2, hfs]

lemma foldVal_ge (ds : List Char) : ∀ acc, acc ≤ foldVal acc ds := by
  induction ds with
  | nil => intro acc; simp [foldVal]
  | cons c rest ih =>
    intro acc
    have h1 : acc ≤ acc * 16 + (hexVal c).getD 0 := by omega
    calc acc ≤ acc * 16 + (hexVal c).getD 0 := h1
      _ ≤ foldVal (acc * 16 + (hexVal c).getD 0) rest := ih _
      _ = foldVal acc (c :: rest) := by simp [foldVal]

lemma hexDigitsLoop_spec (ds : List Char) :
    ∀ acc, acc ≤ 255 →
      hexDigitsLoop ds acc =
        if ds.all (fun c => (hexVal c).isSome) && foldVal acc ds ≤ 255
        then some (foldVal acc ds) else none := by
  induction ds with
  | nil =>
    intro acc hacc
    simp [hexDigitsLoop, foldVal, hacc]
  | cons c rest ih =>
    intro acc hacc
    cases hc : hexVal c with
    | none => simp [hexDigitsLoop, hc]
    | some d =>
      have hfold : foldVal acc (c :: rest) = foldVal (acc * 16 + d) rest := by
        simp [foldVal, hc]
      by_cases hov : acc * 16 + d > 255
      · have : 255 < foldVal acc (c :: rest) := by
          rw [hfold]
          exact lt_of_lt_of_le hov (foldVal_ge rest _)
        simp only [hexDigitsLoop, hc, if_pos hov]
        rw [if_neg]
        simp only [Bool.and_eq_true, decide_eq_true_eq, not_and]
        intro _
        omega
      · push_neg at hov
        simp only [hexDigitsLoop, hc, if_neg (by omega : ¬ acc * 16 + d > 255)]
        rw [ih (acc * 16 + d) hov, hfold]
        simp [hc]

lemma parseFieldU8_spec (s : List Char) :
    parseFieldU8 s =
      if validU8HexField s then some (hexFieldValue (fieldDigits s))
      else none := by
  match s with
  | [] => rfl
  | c :: rest =>
    by_cases hplus : c = '+'
    · subst hplus
      cases rest with
      | nil => rfl
      | cons c2 r2 =>
        have h1 : parseFieldU8 ('+' :: c2 :: r2) = hexDigitsLoop (c2 :: r2) 0 := by
          simp [parseFieldU8]
        have h2 : fieldDigits ('+' :: c2 :: r2) = c2 :: r2 := by
          simp [fieldDigits]
        rw [h1, hexDigitsLoop_spec _ 0 (by omega), h2]
        simp [validU8HexField, hexFieldValue, h2]
    · have h1 : parseFieldU8 (c :: rest) = hexDigitsLoop (c :: rest) 0 := by
        simp [parseFieldU8, hplus]
      have h2 : fieldDigits (c :: rest) = c :: rest := by
        simp [fieldDigits, hplus]
      rw [h1, hexDigitsLoop_spec _ 0 (by omega)]
      simp [validU8HexField, hexFieldValue, h2]

lemma div16_lt {b : Nat} (hb : b < 256) : b / 16 < 16 := by omega

lemma mod16_lt (b : Nat) : b % 16 < 16 := by omega

lemma foldVal_byteHex {b : Nat} (hb : b < 256) :
    foldVal 0 (byteHex b) = b := by
  simp only [foldVal, byteHex, List.foldl, hexVal_hexChar (div16_lt hb),
    hexVal_hexChar (mod16_lt b), Option.getD_some]
  omega

lemma hexDigitsLoop_byteHex {b : Nat} (hb : b < 256) :
    hexDigitsLoop (byteHex b) 0 = some b := by
  rw [hexDigitsLoop_spec _ 0 (by omega)]
  rw [if_pos, foldVal_byteHex hb]
  have hall : (byteHex b).all (fun c => (hexVal c).isSome) = true := by
    simp [byteHex, hexVal_hexChar (div16_lt hb), hexVal_hexChar (mod16_lt b)]
  rw [hall, foldVal_byteHex hb]
  simp only [Bool.true_and, decide_eq_true_eq]
  omega

lemma parseFieldU8_byteHex {b : Nat} (hb : b < 256) :
    parseFieldU8 (byteHex b) = some b := by
  have hne : hexChar (b / 16) ≠ '+' := hexChar_ne_plus (div16_lt hb)
  simp only [byteHex, parseFieldU8, if_neg hne]
  exact hexDigitsLoop_byteHex hb

lemma byteHex_no_macSep {b : Nat} (hb : b < 256) :
    ∀ c ∈ byteHex b, macSep c = false := by
  intro c hc
  simp only [byteHex, List.mem_cons, List.not_mem_nil, or_false] at hc
  rcases hc with h | h
  · exact h ▸ macSep_hexChar (div16_lt hb)
  · exact h ▸ macSep_hexChar (mod16_lt b)

lemma byteHex_no_colonSep {b : Nat} (hb : b < 256) :
    ∀ c ∈ byteHex b, colonSep c = false := by
  intro c hc
  simp only [byteHex, List.mem_cons, List.not_mem_nil, or_false] at hc
  rcases hc with h | h
  · exact h ▸ colonSep_hexChar (div16_lt hb)
  · exact h ▸ colonSep_hexChar (mod16_lt b)

lemma format_data (a : MacAddr) :
    (MacAddr.format a).data =
      byteHex a.b0 ++ ':' :: byteHex a.b1 ++ ':' :: byteHex a.b2 ++
        ':' :: byteHex a.b3 ++ ':' :: byteHex a.b4 ++ ':' :: byteHex a.b5 :=
  rfl

lemma split_format_gen (sep : Char → Bool) (a : MacAddr)
    (hsep : ∀ b : Nat, b < 256 → ∀ c ∈ byteHex b, sep c = false)
    (hcolon : sep ':' = true) (h : a.wf) :
    splitSep sep (MacAddr.format a).data =
      [byteHex a.b0, byteHex a.b1, byteHex a.b2,
       byteHex a.b3, byteHex a.b4, byteHex a.b5] := by
  obtain ⟨h0, h1, h2, h3, h4, h5⟩ := h
  rw [format_data]
  simp only [List.cons_append, List.append_assoc]
  rw [splitSep_append_sep sep _ ':' _ (hsep _ h0) hcolon]
  rw [splitSep_append_sep sep _ ':' _ (hsep _ h1) hcolon]
  rw [splitSep_append_sep sep _ ':' _ (hsep _ h2) hcolon]
  rw [splitSep_append_sep sep _ ':' _ (hsep _ h3) hcolon]
  rw [splitSep_append_sep sep _ ':' _ (hsep _ h4) hcolon]
  rw [splitSep_no_sep sep _ (hsep _ h5)]

lemma split_format_macSep (a : MacAddr) (h : a.wf) :
    splitSep macSep (MacAddr.format a).data =
      [byteHex a.b0, byteHex a.b1, byteHex a.b2,
       byteHex a.b3, byteHex a.b4, byteHex a.b5] :=
  split_format_gen macSep a (fun _ hb => byteHex_no_macSep hb) rfl h

lemma split_format_colonSep (a : MacAddr) (h : a.wf) :
    splitSep colonSep (MacAddr.format a).data =
      [byteHex a.b0, byteHex a.b1, byteHex a.b2,
       byteHex a.b3, byteHex a.b4, byteHex a.b5] :=
  split_format_gen colonSep a (fun _ hb => byteHex_no_colonSep hb) rfl h

lemma parseFieldU8_isSome_iff (s : List Char) :
    (parseFieldU8 s).isSome = validU8HexField s := by
  rw [parseFieldU8_spec]
  by_cases h : validU8HexField s <;> simp [h]

lemma fromStrFields_invalidLength :
    ∀ (l : List (List Char)) (nth : Nat) (acc : List Nat), nth ≤ 6 →
      (∀ f ∈ l.take (6 - nth), (parseFieldU8 f).isSome) →
      nth + l.length ≠ 6 →
      fromStrFields l nth acc = .error .invalidLength := by
  intro l
  induction l with
  | nil =>
    intro nth acc _ _ hlen
    simp only [List.length_nil, Nat.add_zero] at hlen
    simp [fromStrFields, hlen]
  | cons f fs ih =>
    intro nth acc hn hv hlen
    by_cases h6 : nth = 6
    · simp [fromStrFields, h6]
    · have hlt : nth < 6 := by omega
      have htake : (f :: fs).take (6 - nth) = f :: fs.take (6 - nth - 1) := by
        obtain ⟨m, hm⟩ : ∃ m, 6 - nth = m + 1 := ⟨6 - nth - 1, by omega⟩
        rw [hm, List.take_succ_cons]
        simp
      have hf : (parseFieldU8 f).isSome := by
        apply hv
        rw [htake]
        exact List.mem_cons_self _ _
      obtain ⟨v, hv'⟩ := Option.isSome_iff_exists.mp hf
      simp only [fromStrFields, if_neg h6, hv']
      apply ih (nth + 1) (acc ++ [v]) (by omega)
      · intro g hg
        apply hv
        rw [htake]
        have : 6 - nth - 1 = 6 - (nth + 1) := by omega
        exact List.mem_cons_of_mem f (this ▸ hg)
      · simp only [List.length_cons] at hlen
        omega

lemma fromStrFields_ok :
    ∀ (l : List (List Char)) (nth : Nat) (acc : List Nat),
      nth + l.length = 6 →
      (∀ f ∈ l, (parseFieldU8 f).isSome) →
      ∃ out, fromStrFields l nth acc = .ok out := by
  intro l
  induction l with
  | nil =>
    intro nth acc hlen _
    simp only [List.length_nil, Nat.add_zero] at hlen
    exact ⟨acc, by simp [fromStrFields, hlen]⟩
  | cons f fs ih =>
    intro nth acc hlen hv
    have h6 : nth ≠ 6 := by
      simp only [List.length_cons] at hlen
      omega
    obtain ⟨v, hv'⟩ :=
      Option.isSome_iff_exists.mp (hv f (List.mem_cons_self _ _))
    simp only [fromStrFields, if_neg h6, hv']
    apply ih (nth + 1) (acc ++ [v])
    · simp only [List.length_cons] at hlen
      omega
    · exact fun g hg => hv g (List.mem_cons_of_mem f hg)

lemma fromStrFields_invalidDigit :
    ∀ (l : List (List Char)) (nth : Nat) (acc : List Nat),
      nth + l.length ≤ 6 →
      ¬ (∀ f ∈ l, (parseFieldU8 f).isSome) →
      fromStrFields l nth acc = .error .invalidDigit := by
  intro l
  induction l with
  | nil =>
    intro nth acc _ hbad
    exact absurd (by simp) hbad
  | cons f fs ih =>
    intro nth acc hlen hbad
    have h6 : nth ≠ 6 := by
      simp only [List.length_cons] at hlen
      omega
    cases hf : parseFieldU8 f with
    | none => simp [fromStrFields, if_neg h6, hf]
    | some v =>
      simp only [fromStrFields, if_neg h6, hf]
      apply ih (nth + 1) (acc ++ [v])
      · simp only [List.length_cons] at hlen
        omega
      · intro hall
        apply hbad
        intro g hg
        rcases List.mem_cons.mp hg with h | h
        · rw [h, hf]
          rfl
        · exact hall g h

lemma fromStrFields_six (f0 f1 f2 f3 f4 f5 : List Char)
    (v0 v1 v2 v3 v4 v5 : Nat)
    (h0 : parseFieldU8 f0 = some v0) (h1 : parseFieldU8 f1 = some v1)
    (h2 : parseFieldU8 f2 = some v2) (h3 : parseFieldU8 f3 = some v3)
    (h4 : parseFieldU8 f4 = some v4) (h5 : parseFieldU8 f5 = some v5) :
    fromStrFields [f0, f1, f2, f3, f4, f5] 0 [] =
      .ok [v0, v1, v2, v3, v4, v5] := by
  simp [fromStrFields, h0, h1, h2, h3, h4, h5]

lemma byteHex_shape {b : Nat} (hb : b < 256) :
    (byteHex b).length = 2 ∧ ∀ c ∈ byteHex b, isUpperHexDigit c = true := by
  refine ⟨rfl, ?_⟩
  intro c hc
  simp only [byteHex, List.mem_cons, List.not_mem_nil, or_false] at hc
  rcases hc with h | h
  · exact h ▸ isUpperHexDigit_hexChar (div16_lt hb)
  · exact h ▸ isUpperHexDigit_hexChar (mod16_lt b)

/-- Claim C1: parsing the canonical formatted text of any 6-octet
MacAddress yields the original value: `from_str (format addr) = ok addr`. -/
theorem C1_parse_format_roundtrip (a : MacAddr) (h : a.wf) :
    from_str (MacAddr.format a) = .ok a := by
  obtain ⟨h0, h1, h2, h3, h4, h5⟩ := h
  unfold from_str
  rw [split_format_macSep a ⟨h0, h1, h2, h3, h4, h5⟩,
    fromStrFields_six _ _ _ _ _ _ _ _ _ _ _ _
      (parseFieldU8_byteHex h0) (parseFieldU8_byteHex h1)
      (parseFieldU8_byteHex h2) (parseFieldU8_byteHex h3)
      (parseFieldU8_byteHex h4) (parseFieldU8_byteHex h5)]
  simp [MacAddr.ofList]

/-- Witness for C1 at the concrete address 00:FF:02:03:44:55. -/
theorem C1_parse_format_roundtrip_witness :
    MacAddr.wf ⟨0, 255, 2, 3, 68, 85⟩ ∧
    from_str (MacAddr.format ⟨0, 255, 2, 3, 68, 85⟩) =
      .ok ⟨0, 255, 2, 3, 68, 85⟩ :=
  ⟨by decide, C1_parse_format_roundtrip ⟨0, 255, 2, 3, 68, 85⟩ (by decide)⟩

/-- Counterexample to C2 as stated: `"zz:11"` splits into 2 fields (not
6), yet Parse fails with InvalidDigit, not InvalidLength, because fields
are interpreted left to right before the count is known. -/
theorem C2_counterexample :
    (splitSep macSep "zz:11".data).length = 2 ∧
    from_str "zz:11" ≠ .error .invalidLength ∧
    from_str "zz:11" = .error .invalidDigit := by
  refine ⟨by decide, by decide, by decide⟩

/-- Claim C2 (amended): when every field among the first six parses as a
u8 hex value and the field count is not 6, Parse fails with InvalidLength;
with a 7th field present this holds whatever the 7th field contains, so
the 7th field is never interpreted. -/
theorem C2_invalid_length (s : String)
    (hvalid : ∀ f ∈ (splitSep macSep s.data).take 6, (parseFieldU8 f).isSome)
    (hlen : (splitSep macSep s.data).length ≠ 6) :
    from_str s = .error .invalidLength := by
  unfold from_str
  rw [fromStrFields_invalidLength (splitSep macSep s.data) 0 [] (by omega)
    (by simpa using hvalid) (by simpa using hlen)]

/-- Witness for C2 (amended) at `"0:0:0:0:0:0:zz"`: seven fields, the
first six valid, the unparseable 7th never interpreted. -/
theorem C2_invalid_length_witness :
    (∀ f ∈ (splitSep macSep "0:0:0:0:0:0:zz".data).take 6,
      (parseFieldU8 f).isSome) ∧
    (splitSep macSep "0:0:0:0:0:0:zz".data).length ≠ 6 ∧
    from_str "0:0:0:0:0:0:zz" = .error .invalidLength :=
  ⟨by decide, by decide, C2_invalid_length _ (by decide) (by decide)⟩

/-- Counterexample to C3 as stated: `"000:00:00:00:00:00"` has exactly 6
fields and its first field `000` is not 1-2 hex digits, yet Parse
succeeds instead of failing with InvalidDigit (u8 hex parsing accepts any
number of digits while the value fits). -/
theorem C3_counterexample :
    (splitSep macSep "000:00:00:00:00:00".data).length = 6 ∧
    ['0', '0', '0'] ∈ splitSep macSep "000:00:00:00:00:00".data ∧
    isField12 ['0', '0', '0'] = false ∧
    from_str "000:00:00:00:00:00" = .ok ⟨0, 0, 0, 0, 0, 0⟩ := by
  refine ⟨by decide, by decide, by decide, by decide⟩

/-- Claim C3 (amended): for exactly-6-field inputs, Parse succeeds iff
every field is an optional `+` followed by one or more case-insensitive
hex digits of total value at most 255; otherwise it fails with
InvalidDigit. -/
theorem C3_hex_fields (s : String)
    (hlen : (splitSep macSep s.data).length = 6) :
    ((∃ a, from_str s = .ok a) ↔
      ∀ f ∈ splitSep macSep s.data, validU8HexField f = true) ∧
    ((¬ ∀ f ∈ splitSep macSep s.data, validU8HexField f = true) →
      from_str s = .error .invalidDigit) := by
  have hdig : (¬ ∀ f ∈ splitSep macSep s.data, validU8HexField f = true) →
      from_str s = .error .invalidDigit := by
    intro hbad
    unfold from_str
    rw [fromStrFields_invalidDigit (splitSep macSep s.data) 0 []
      (by omega)
      (fun hall => hbad (fun f hf => by
        rw [← parseFieldU8_isSome_iff]
        exact hall f hf))]
  refine ⟨⟨?_, ?_⟩, hdig⟩
  · rintro ⟨a, ha⟩
    by_contra hbad
    rw [hdig hbad] at ha
    exact Except.noConfusion ha
  · intro hall
    obtain ⟨out, hout⟩ := fromStrFields_ok (splitSep macSep s.data) 0 []
      (by omega)
      (fun f hf => by rw [parseFieldU8_isSome_iff]; exact hall f hf)
    refine ⟨MacAddr.ofList out, ?_⟩
    unfold from_str
    rw [hout]

/-- Witness for C3 (amended) at `"aB:0:ff:+1:00:F"`: six fields, all
valid u8 hex fields, so Parse succeeds. -/
theorem C3_hex_fields_witness :
    (splitSep macSep "aB:0:ff:+1:00:F".data).length = 6 ∧
    ((∃ a, from_str "aB:0:ff:+1:00:F" = .ok a) ↔
      ∀ f ∈ splitSep macSep "aB:0:ff:+1:00:F".data,
        validU8HexField f = true) :=
  ⟨by decide, (C3_hex_fields "aB:0:ff:+1:00:F" (by decide)).1⟩

/-- Claim C4: Format produces exactly 6 fields joined by `:`, each field
exactly 2 uppercase hex digits whose value is the corresponding octet;
octet 0 renders as `00` and octet 255 as `FF`. -/
theorem C4_format_canonical (a : MacAddr) (h : a.wf) :
    (splitSep colonSep (MacAddr.format a).data).length = 6 ∧
    (∀ f ∈ splitSep colonSep (MacAddr.format a).data,
      f.length = 2 ∧ ∀ c ∈ f, isUpperHexDigit c = true) ∧
    (splitSep colonSep (MacAddr.format a).data).map hexFieldValue =
      [a.b0, a.b1, a.b2, a.b3, a.b4, a.b5] ∧
    byteHex 0 = ['0', '0'] ∧ byteHex 255 = ['F', 'F'] := by
  obtain ⟨h0, h1, h2, h3, h4, h5⟩ := h
  rw [split_format_colonSep a ⟨h0, h1, h2, h3, h4, h5⟩]
  refine ⟨rfl, ?_, ?_, by decide, by decide⟩
  · intro f hf
    simp only [List.mem_cons, List.not_mem_nil, or_false] at hf
    rcases hf with hf | hf | hf | hf | hf | hf <;> subst hf
    · exact byteHex_shape h0
    · exact byteHex_shape h1
    · exact byteHex_shape h2
    · exact byteHex_shape h3
    · exact byteHex_shape h4
    · exact byteHex_shape h5
  · simp only [List.map_cons, List.map_nil, hexFieldValue,
      foldVal_byteHex h0, foldVal_byteHex h1, foldVal_byteHex h2,
      foldVal_byteHex h3, foldVal_byteHex h4, foldVal_byteHex h5]

/-- Witness for C4 at the concrete address 00:FF:02:03:44:55. -/
theorem C4_format_canonical_witness :
    MacAddr.wf ⟨0, 255, 2, 3, 68, 85⟩ ∧
    (splitSep colonSep (MacAddr.format ⟨0, 255, 2, 3, 68, 85⟩).data).map
      hexFieldValue = [0, 255, 2, 3, 68, 85] :=
  ⟨by decide,
    (C4_format_canonical ⟨0, 255, 2, 3, 68, 85⟩ (by decide)).2.2.1⟩

/-- Claim C5: for every draw of 6 random octets, the generated address has
bit 0 of octet 0 clear (unicast) and bit 1 of octet 0 set (locally
administered), and octets 1-5 equal the raw draws. -/
theorem C5_new_addr_bits (r : Fin 6 → Fin 256) :
    Nat.testBit (new_addr r).b0 0 = false ∧
    Nat.testBit (new_addr r).b0 1 = true ∧
    (new_addr r).b1 = (r 1 : Nat) ∧ (new_addr r).b2 = (r 2 : Nat) ∧
    (new_addr r).b3 = (r 3 : Nat) ∧ (new_addr r).b4 = (r 4 : Nat) ∧
    (new_addr r).b5 = (r 5 : Nat) := by
  have ha : Nat.testBit 254 0 = false := by decide
  have hb : Nat.testBit 2 0 = false := by decide
  have hc : Nat.testBit 2 1 = true := by decide
  refine ⟨?_, ?_, rfl, rfl, rfl, rfl, rfl⟩
  · show Nat.testBit ((r 0 : Nat) &&& 0xfe ||| 0x02) 0 = false
    simp [Nat.testBit_or, Nat.testBit_and, ha, hb]
  · show Nat.testBit ((r 0 : Nat) &&& 0xfe ||| 0x02) 1 = true
    simp [Nat.testBit_or, hc]

/-- Claim C6: the no-name lookup returns the first enumerated link-layer
entry whose bytes are not all zero, paired with its name, and `none` when
no such entry exists. -/
theorem C6_lookup_none (env : List InterfaceEntry) :
    get_info none env =
      (env.find? isRealLink).map (fun e => (e.interface_name, entryBytes e)) := by
  induction env with
  | nil => rfl
  | cons e rest ih =>
    cases he : e.address with
    | none =>
      have hp : ¬ isRealLink e = true := by simp [isRealLink, isLinkEntry, he]
      rw [List.find?_cons_of_neg _ hp]
      simpa [get_info, he] using ih
    | some sa =>
      cases sa with
      | other =>
        have hp : ¬ isRealLink e = true := by simp [isRealLink, isLinkEntry, he]
        rw [List.find?_cons_of_neg _ hp]
        simpa [get_info, he] using ih
      | link b =>
        by_cases hb : b.anyNonzero
        · have hp : isRealLink e = true := by
            simp [isRealLink, isLinkEntry, entryBytes, he, hb]
          rw [List.find?_cons_of_pos _ hp]
          simp [get_info, he, hb, entryBytes]
        · have hp : ¬ isRealLink e = true := by
            simp [isRealLink, isLinkEntry, entryBytes, he, hb]
          rw [List.find?_cons_of_neg _ hp]
          simpa [get_info, he, hb] using ih

/-- Claim C7: the named lookup returns the given name with the bytes of
the first link-layer entry matching that name, with no all-zero filter,
and `none` when no link-layer entry matches. -/
theorem C7_lookup_name (env : List InterfaceEntry) (n : String) :
    get_info (some n) env =
      (env.find? (matchesName n)).map (fun e => (n, entryBytes e)) := by
  induction env with
  | nil => rfl
  | cons e rest ih =>
    cases he : e.address with
    | none =>
      have hp : ¬ matchesName n e = true := by
        simp [matchesName, isLinkEntry, he]
      rw [List.find?_cons_of_neg _ hp]
      simpa [get_info, he] using ih
    | some sa =>
      cases sa with
      | other =>
        have hp : ¬ matchesName n e = true := by
          simp [matchesName, isLinkEntry, he]
        rw [List.find?_cons_of_neg _ hp]
        simpa [get_info, he] using ih
      | link b =>
        by_cases hn : e.interface_name = n
        · have hp : matchesName n e = true := by
            simp [matchesName, isLinkEntry, he, hn]
          rw [List.find?_cons_of_pos _ hp]
          simp [get_info, he, hn, entryBytes]
        · have hp : ¬ matchesName n e = true := by
            simp [matchesName, isLinkEntry, he, hn]
          rw [List.find?_cons_of_neg _ hp]
          simpa [get_info, he, hn] using ih

/-- Claim C8: `set` with both an address string and `random = true`
emits the precedence advisory first and exactly once, every mutation
applies the freshly generated address, and the outcome does not depend on
the address string at all (it is never parsed). -/
theorem C8_random_takes_precedence (s t : String) (iface : Option String)
    (r : Fin 6 → Fin 256) (env : List InterfaceEntry) :
    (runSet (some s) iface true r env).advisories.count .randomPrecedence
      = 1 ∧
    (runSet (some s) iface true r env).advisories.head?
      = some .randomPrecedence ∧
    (∀ m ∈ (runSet (some s) iface true r env).mutations,
      m.2 = new_addr r) ∧
    runSet (some t) iface true r env = runSet (some s) iface true r env := by
  cases iface with
  | some inter =>
    by_cases hex : inter_exists env inter <;>
      simp [runSet, hex, List.count_cons, List.count_nil]
  | none =>
    cases hg : get_info none env with
    | some p =>
      obtain ⟨inter, b⟩ := p
      simp [runSet, hg, List.count_cons, List.count_nil]
    | none =>
      simp [runSet, hg, List.count_cons, List.count_nil]

/-- Claim C9: `set` with `random = false` and an unparseable address
string terminates with the error built from the ParseError, with no
mutation, no existence check, and no lookup. -/
theorem C9_parse_error_no_mutation (s : String) (iface : Option String)
    (r : Fin 6 → Fin 256) (env : List InterfaceEntry) (e : MacParseError)
    (h : from_str s = .error e) :
    runSet (some s) iface false r env =
      ⟨[.notValidMac s], [], 0, [], .invalidInput e⟩ := by
  simp [runSet, h]

/-- Witness for C9 at `set -a "zz:11:22:33:44:55"`. -/
theorem C9_parse_error_no_mutation_witness :
    from_str "zz:11:22:33:44:55" = .error .invalidDigit ∧
    runSet (some "zz:11:22:33:44:55") none false (fun _ => 0) [] =
      ⟨[.notValidMac "zz:11:22:33:44:55"], [], 0, [],
        .invalidInput .invalidDigit⟩ :=
  ⟨by decide,
    C9_parse_error_no_mutation "zz:11:22:33:44:55" none (fun _ => 0) []
      .invalidDigit (by decide)⟩

/-- Claim C10: `set` with no address, no interface and `random = false`
does nothing: no advisory, no existence check, no lookup, no mutation,
normal termination. -/
theorem C10_set_bare_noop (r : Fin 6 → Fin 256)
    (env : List InterfaceEntry) :
    runSet none none false r env = ⟨[], [], 0, [], .ok⟩ := by
  simp [runSet]
